import Mathlib

/-!
Shallow embedding of the momentum_bot trading strategies
(src/strategies/sma_momentum.py, src/strategies/simple_momentum.py and
src/strategies/helper.py) together with theorems settling the frozen
claims about them.

Numeric model: Python/numpy floating point values are modelled as exact
extended rationals.  Finite values are rationals; the IEEE special values
that the code can actually produce (through division by zero and NaN
propagation in pandas/numpy) are modelled by the type `PF` below.  Pandas
missing values (the NaN that `rolling` windows produce before they are
full, or that `diff` produces at row 0) are modelled as `Option ℚ`, with
Python comparison semantics: every comparison against NaN is false.
Rounding error is not modelled; every arithmetic step the code performs is
represented exactly.
-/

namespace Momentum

/-- Model of a Python/numpy floating point value: an exact rational,
positive or negative infinity, or NaN. -/
inductive PF where
  | fin (q : ℚ)
  | pinf
  | ninf
  | nan
deriving DecidableEq

namespace PF

/-- IEEE negation. -/
def neg : PF → PF
  | fin q => fin (-q)
  | pinf => ninf
  | ninf => pinf
  | nan => nan

/-- IEEE addition (exact on finite values). -/
def add : PF → PF → PF
  | nan, _ => nan
  | _, nan => nan
  | fin a, fin b => fin (a + b)
  | fin _, pinf => pinf
  | fin _, ninf => ninf
  | pinf, fin _ => pinf
  | ninf, fin _ => ninf
  | pinf, pinf => pinf
  | ninf, ninf => ninf
  | pinf, ninf => nan
  | ninf, pinf => nan

/-- IEEE subtraction. -/
def sub (a b : PF) : PF := add a (neg b)

/-- IEEE multiplication; zero times an infinity is NaN. -/
def mul : PF → PF → PF
  | nan, _ => nan
  | _, nan => nan
  | fin a, fin b => fin (a * b)
  | fin a, pinf => if 0 < a then pinf else if a < 0 then ninf else nan
  | fin a, ninf => if 0 < a then ninf else if a < 0 then pinf else nan
  | pinf, fin b => if 0 < b then pinf else if b < 0 then ninf else nan
  | ninf, fin b => if 0 < b then ninf else if b < 0 then pinf else nan
  | pinf, pinf => pinf
  | pinf, ninf => ninf
  | ninf, pinf => ninf
  | ninf, ninf => pinf

/-- IEEE division.  The model has a single (positive) zero, so a nonzero
finite value divided by zero has the sign of the numerator, and an
infinity divided by zero stays an infinity of the same sign; numpy emits
a RuntimeWarning in these cases, not an exception. -/
def div : PF → PF → PF
  | nan, _ => nan
  | _, nan => nan
  | fin a, fin b =>
      if b = 0 then (if 0 < a then pinf else if a < 0 then ninf else nan)
      else fin (a / b)
  | fin _, pinf => fin 0
  | fin _, ninf => fin 0
  | pinf, fin b => if 0 ≤ b then pinf else ninf
  | ninf, fin b => if 0 ≤ b then ninf else pinf
  | pinf, pinf => nan
  | pinf, ninf => nan
  | ninf, pinf => nan
  | ninf, ninf => nan

/-- IEEE absolute value. -/
def abs : PF → PF
  | fin q => fin |q|
  | nan => nan
  | pinf => pinf
  | ninf => pinf

/-- Python `a < b`: false whenever either side is NaN. -/
def lt : PF → PF → Bool
  | nan, _ => false
  | _, nan => false
  | fin a, fin b => decide (a < b)
  | fin _, pinf => true
  | fin _, ninf => false
  | pinf, _ => false
  | ninf, ninf => false
  | ninf, _ => true

/-- Python `a > b`. -/
def gt (a b : PF) : Bool := lt b a

end PF

/-- A pandas scalar that may be missing (NaN) viewed as a `PF` value. -/
def PF.ofOpt : Option ℚ → PF
  | none => PF.nan
  | some q => PF.fin q

/-- Sum of a list of rationals. -/
def qsum (l : List ℚ) : ℚ := l.foldr (fun a b => a + b) 0

/-- Arithmetic mean of a list of rationals (callers ensure nonemptiness;
on the empty list the model yields 0/0 = 0, which no embedded code path
reaches). -/
def qmean (l : List ℚ) : ℚ := qsum l / (l.length : ℚ)

/-- The last `n` elements of a list: the pandas rolling window that ends
at the last row. -/
def lastN (n : ℕ) (l : List ℚ) : List ℚ := l.drop (l.length - n)

/-- Embeds `series.rolling(n).mean().iloc[-1]`.  `none` is pandas NaN:
the window is not yet full (fewer than `n` rows). -/
def rollingMeanLast (n : ℕ) (l : List ℚ) : Option ℚ :=
  if l.length < n ∨ n = 0 then none else some (qmean (lastN n l))

/-- Embeds `series.rolling(n).mean().iloc[-(j+1)]`: the rolling mean at
the j-th position from the end, i.e. the last value over the prefix that
drops the final `j` rows. -/
def rollingMeanFromEnd (n j : ℕ) (l : List ℚ) : Option ℚ :=
  rollingMeanLast n (l.take (l.length - j))

/-- Embeds the square of `series.rolling(n).std().iloc[-1]`: the exact
sample variance (ddof = 1) of the last `n` values.  The embedded code
uses the rolling std only through the comparison `std > c` with `c ≥ 0`
and through the score division `momentum / std`; both are represented
exactly through the variance, since std = √variance and both sides of
the comparisons are nonnegative. -/
def rollingVarLast (n : ℕ) (l : List ℚ) : Option ℚ :=
  if l.length < n ∨ n < 2 then none
  else
    let w := lastN n l
    let m := qmean w
    some (qsum (w.map (fun x => (x - m) ^ 2)) / ((n : ℚ) - 1))

/-- Python/pandas `a > b` on possibly-missing scalars: any comparison
involving NaN is false. -/
def optGt : Option ℚ → Option ℚ → Bool
  | some a, some b => decide (b < a)
  | _, _ => false

/-- Python/pandas `a < b` on possibly-missing scalars. -/
def optLt (a b : Option ℚ) : Bool := optGt b a

/-- Python `int(q)`: truncation toward zero. -/
def pyInt (q : ℚ) : ℤ := if 0 ≤ q then ⌊q⌋ else -⌊-q⌋

/-- The integer square root `⌊√m⌋`: the largest `n ≤ m` with `n² ≤ m`,
found by a linear scan (a kernel-reducible equivalent of `Nat.sqrt`). -/
def natSqrt (m : ℕ) : ℕ :=
  (List.range (m + 1)).foldl (fun acc n => if n * n ≤ m then n else acc) 0

/-- Truncation toward zero of `q / √k` for a natural `k ≥ 1`.  For
`q ≥ 0` this is `⌊q/√k⌋`, and `n ≤ q/√k ↔ n·√k ≤ q ↔ n²·k ≤ q²`
for naturals `n`, so `⌊q/√k⌋ = ⌊√(q²/k)⌋ = natSqrt ⌊q²/k⌋` (taking the
integer square root after the floor is sound because `n² ≤ x ↔ n² ≤ ⌊x⌋`
for integers `n²`).  For `q < 0`, truncation toward zero is the negation
of the nonnegative case applied to `-q`, and `(-q)² = q²`. -/
def truncDivSqrt (q : ℚ) (k : ℕ) : ℤ :=
  let n : ℕ := natSqrt (Int.toNat ⌊q ^ 2 / (k : ℚ)⌋)
  if 0 ≤ q then (n : ℤ) else -(n : ℤ)

/-- numpy scalar division `a / b` of two finite values with IEEE
zero-division semantics: a positive value divided by (positive) zero is
+inf, a negative one is -inf, and 0/0 is NaN.  numpy emits a warning
here, never an exception. -/
def pandasDivQ (a b : ℚ) : PF :=
  if b = 0 then (if 0 < a then PF.pinf else if a < 0 then PF.ninf else PF.nan)
  else PF.fin (a / b)

/-- One OHLC row of a price dataframe.  The timestamp, open and volume
columns are never read by the embedded code and are omitted. -/
structure Bar where
  high : ℚ
  low : ℚ
  close : ℚ
deriving DecidableEq

/-- The close-price series of a dataframe. -/
def closesOf (df : List Bar) : List ℚ := df.map Bar.close

/-- True-range rows after the first: per row,
`max(high - low, |high - prevClose|, |low - prevClose|)`. -/
def trAux (prev : Bar) : List Bar → List ℚ
  | [] => []
  | b :: rest =>
      max (b.high - b.low) (max |b.high - prev.close| |b.low - prev.close|) :: trAux b rest

/-- Embeds `tr = pd.concat([high - low, abs(high - close.shift(1)),
abs(low - close.shift(1))], axis=1).max(axis=1)`: at row 0 the shifted
close is NaN and `max(axis=1)` skips NaN, leaving `high - low`. -/
def trueRanges : List Bar → List ℚ
  | [] => []
  | b :: rest => (b.high - b.low) :: trAux b rest

/-- Embeds `SMAMomentumBot.calculate_atr(df, period).iloc[-1]` (that
version has no `dropna`): `none` is the NaN a not-yet-full rolling
window yields. -/
def calculate_atr_last (period : ℕ) (df : List Bar) : Option ℚ :=
  rollingMeanLast period (trueRanges df)

/-- Embeds `helper.calculate_atr(df, period)` followed by `.iloc[-1]`.
The helper drops NaN rows, so the same value results, but here `none`
means the dropped series was empty and `.iloc[-1]` raises IndexError;
call sites treat `none` accordingly. -/
def helper_atr_last (period : ℕ) (df : List Bar) : Option ℚ :=
  rollingMeanLast period (trueRanges df)

/-- Embeds `delta.where(delta > 0, 0)` over `delta = prices.diff()`.
At row 0 the diff is NaN, `NaN > 0` is false, and `where` replaces the
row by 0, so the whole series is finite. -/
def gains (prices : List ℚ) : List ℚ :=
  0 :: (prices.tail.zip prices).map (fun p => if 0 < p.1 - p.2 then p.1 - p.2 else 0)

/-- Embeds `delta.where(delta < 0, 0)`: the nonpositive part of the
price deltas, with row 0 replaced by 0 as in `gains`. -/
def negdeltas (prices : List ℚ) : List ℚ :=
  0 :: (prices.tail.zip prices).map (fun p => if p.1 - p.2 < 0 then p.1 - p.2 else 0)

/-- The rolling average gain read by the RSI at the last row:
`delta.where(delta > 0, 0).rolling(period).mean().iloc[-1]`. -/
def avg_gain_last (period : ℕ) (prices : List ℚ) : Option ℚ :=
  rollingMeanLast period (gains prices)

/-- The rolling average loss read by the RSI at the last row:
`(-delta.where(delta < 0, 0).rolling(period).mean()).iloc[-1]` (the
unary minus applies to the rolling mean; by linearity this equals the
sign-flipped mean of the nonpositive deltas and is nonnegative). -/
def avg_loss_last (period : ℕ) (prices : List ℚ) : Option ℚ :=
  (rollingMeanLast period (negdeltas prices)).map (fun x => -x)

/-- Embeds `helper.calculate_rsi(prices, period)` at the last row.
`none` is the early `return None` for series shorter than `period`.
Otherwise `rs = gain / loss` uses pandas division (infinity when the
average loss is zero and the average gain positive, NaN when both are
zero) and `rsi = 100 - 100 / (1 + rs)` propagates those specials.
Every other row of the RSI series is this same function applied to the
corresponding prefix of the price series, so per-row properties follow
from properties of this last-row value over all price lists. -/
def rsi_last (period : ℕ) (prices : List ℚ) : Option PF :=
  if prices.length < period then none
  else
    match avg_gain_last period prices, avg_loss_last period prices with
    | some g, some l =>
        some (PF.sub (PF.fin 100) (PF.div (PF.fin 100) (PF.add (PF.fin 1) (pandasDivQ g l))))
    | _, _ => some PF.nan

/-- Market condition.  The source stores it as one of the strings
"Bull", "Bear", "Flat", "Neutral"; the enum eliminates no behaviour
because those four are the only values ever assigned. -/
inductive MC where
  | Bull
  | Bear
  | Flat
  | Neutral
deriving DecidableEq

/-- Order side. -/
inductive Side where
  | buy
  | sell
deriving DecidableEq

/-- An order intent handed to the broker (`create_order` arguments).
`SimpleMomentumBot` attaches a trailing stop instead of fixed levels;
that parameter does not interact with any claim and is not modelled. -/
structure Intent where
  symbol : String
  side : Side
  quantity : ℤ
  stop_loss : Option ℚ
  take_profit : Option ℚ
deriving DecidableEq

/-- The external collaborators read by one trading cycle, as pure data:
`hist s` is `get_historical_prices(s, length=252)` (`none`: no data
object), `lastPrice s` is `get_last_price(s)`, `positionQty s` is the
held quantity (`0` when `get_position` returns none), and `cash` /
`portfolio_value` are the broker account numbers. -/
structure Env where
  hist : String → Option (List Bar)
  lastPrice : String → ℚ
  positionQty : String → ℕ
  cash : ℚ
  portfolio_value : ℚ

/-- The mutable instance state of `SMAMomentumBot` that the embedded
methods read or write.  The field `stock_universe` embeds the source
attribute `self.universe` (`universe` is a reserved word in Lean). -/
structure BotState where
  stock_universe : List String
  base_risk_per_trade : ℚ
  risk_per_trade : ℚ
  market_condition : MC
  portfolio_peak : ℚ
deriving DecidableEq

/-- Embeds `SMAMomentumBot.get_valid_data(stock, length=252)`: the
dataframe, or `none` when there is no data object, the frame is empty,
or it has fewer than 50 rows (the source logs and returns `None`). -/
def get_valid_data (env : Env) (stock : String) : Option (List Bar) :=
  match env.hist stock with
  | none => none
  | some df => if df.length = 0 ∨ df.length < 50 then none else some df

/-- Embeds `SMAMomentumBot.detect_high_volatility`: false when SPY data
is missing or empty, else `atr > mean(close) * 0.05` with a
possibly-NaN ATR (NaN compares false). -/
def detect_high_volatility (env : Env) : Bool :=
  match env.hist "SPY" with
  | none => false
  | some df =>
      if df.length = 0 then false
      else optGt (calculate_atr_last 14 df) (some (qmean (closesOf df) * (5 / 100)))

/-- Embeds `SMAMomentumBot.adjust_for_volatility`: the risk per trade is
reassigned from the base in both branches. -/
def adjust_for_volatility (env : Env) (st : BotState) : BotState :=
  if detect_high_volatility env then
    { st with risk_per_trade := st.base_risk_per_trade * (1 / 2) }
  else
    { st with risk_per_trade := st.base_risk_per_trade }

/-- The regime risk-multiplier table
`{"Bull": 5.0, "Bear": 0.5, "Flat": 1.0}.get(market_condition, 1.0)`. -/
def risk_multiplier : MC → ℚ
  | MC.Bull => 5
  | MC.Bear => 1 / 2
  | MC.Flat => 1
  | MC.Neutral => 1

/-- Embeds `SMAMomentumBot.adjust_risk_based_on_market`. -/
def adjust_risk_based_on_market (st : BotState) : BotState :=
  { st with risk_per_trade := st.base_risk_per_trade * risk_multiplier st.market_condition }

/-- The weighted SMA(50) slope of `detect_market_condition`: the mean of
`[sma50.iloc[-i] - sma50.iloc[-(i+1)] for i in range(1, 6)]`; NaN
(`none`) when any of the five differences touches a not-yet-full
window. -/
def spy_weighted_slope (closes : List ℚ) : Option ℚ :=
  let slopes := (List.range 5).map
    (fun i => match rollingMeanFromEnd 50 i closes, rollingMeanFromEnd 50 (i + 1) closes with
      | some a, some b => some (a - b)
      | _, _ => none)
  if slopes.all Option.isSome then some (qsum (slopes.filterMap id) / 5) else none

/-- The dynamic slope threshold of `detect_market_condition`:
`0.05 if volatility > 1.5 else 0.1`, where the volatility is the last
20-row rolling std of the closes.  `std > 1.5` is embedded exactly as
`variance > 1.5²` (both sides of the original comparison are
nonnegative and squaring is monotone). -/
def spy_slope_threshold (closes : List ℚ) : ℚ :=
  if optGt (rollingVarLast 20 closes) (some (9 / 4)) then 5 / 100 else 1 / 10

/-- Embeds `SMAMomentumBot.detect_market_condition` (which ends by
calling `adjust_risk_based_on_market`; the early Neutral return does
not). -/
def detect_market_condition (env : Env) (st : BotState) : BotState :=
  match get_valid_data env "SPY" with
  | none => { st with market_condition := MC.Neutral }
  | some df =>
      let closes := closesOf df
      let slope := spy_weighted_slope closes
      let thr := spy_slope_threshold closes
      let sma50 := rollingMeanLast 50 closes
      let sma200 := rollingMeanLast 200 closes
      let mc :=
        if optGt slope (some thr) && optGt sma50 sma200 then MC.Bull
        else if optLt slope (some (-thr)) && optLt sma50 sma200 then MC.Bear
        else MC.Flat
      adjust_risk_based_on_market { st with market_condition := mc }

/-- The per-cycle risk adjustment phase: the first two statements of
`SMAMomentumBot.on_trading_iteration`, namely
`self.detect_market_condition()` then `self.adjust_for_volatility()`. -/
def risk_adjustment_phase (env : Env) (st : BotState) : BotState :=
  adjust_for_volatility env (detect_market_condition env st)

/-- Rolling mean of every position of a rational series, embedding
`series.rolling(n).mean()` row by row (`none` = NaN). -/
def rollingMeanAll (n : ℕ) (l : List ℚ) : List (Option ℚ) :=
  (List.range l.length).map (fun i => rollingMeanLast n (l.take (i + 1)))

/-- Sum of a list of `PF` values. -/
def pfSum (l : List PF) : PF := l.foldr PF.add (PF.fin 0)

/-- Embeds `series.rolling(n).mean().iloc[-1]` for a series that may
hold IEEE specials: NaN when the window is not full, and otherwise the
window sum (NaN-propagating) divided by `n`. -/
def pfRollingMeanLast (n : ℕ) (l : List PF) : PF :=
  if l.length < n ∨ n = 0 then PF.nan
  else PF.div (pfSum (l.drop (l.length - n))) (PF.fin (n : ℚ))

/-- Embeds `high.diff()` / `low.diff()`: `none` is the NaN at row 0. -/
def pdiff (l : List ℚ) : List (Option ℚ) :=
  none :: (l.tail.zip l).map (fun p => some (p.1 - p.2))

/-- Embeds `SMAMomentumBot.calculate_adx(df, period).iloc[-1]`.
Follows the source statement by statement: `plus_dm` is rewritten
first (`plus_dm.where((plus_dm > minus_dm) & (plus_dm > 0), 0)`, with
the NaN at row 0 failing the condition and becoming 0), and the
`minus_dm` rewrite then compares against the already-rewritten
`plus_dm`.  `+DI`, `-DI`, `DX` and the final rolling mean use IEEE
division semantics through `PF`. -/
def calculate_adx_last (period : ℕ) (df : List Bar) : PF :=
  let highs := df.map Bar.high
  let lows := df.map Bar.low
  let atr := rollingMeanAll period (trueRanges df)
  let plus_dm0 := pdiff highs
  let minus_dm0 := pdiff lows
  let plus_dm := plus_dm0.zip minus_dm0 |>.map
    (fun p => if optGt p.1 p.2 && optGt p.1 (some 0) then p.1.getD 0 else 0)
  let minus_dm := minus_dm0.zip plus_dm |>.map
    (fun p => if optGt p.1 (some p.2) && optGt p.1 (some 0) then p.1.getD 0 else 0)
  let plus_di := (rollingMeanAll period plus_dm).zip atr |>.map
    (fun p => PF.mul (PF.fin 100) (PF.div (PF.ofOpt p.1) (PF.ofOpt p.2)))
  let minus_di := (rollingMeanAll period minus_dm).zip atr |>.map
    (fun p => PF.mul (PF.fin 100) (PF.div (PF.ofOpt p.1) (PF.ofOpt p.2)))
  let dx := plus_di.zip minus_di |>.map
    (fun p => PF.mul (PF.div (PF.abs (PF.sub p.1 p.2)) (PF.add p.1 p.2)) (PF.fin 100))
  pfRollingMeanLast period dx

/-- Embeds `SMAMomentumBot.get_asset_sma_periods`: regime-dependent SMA
periods; in a Bull regime the choice additionally reads the ADX of the
stock, and missing data falls through to the default `(10, 30)`. -/
def get_asset_sma_periods (env : Env) (mc : MC) (stock : String) : ℕ × ℕ :=
  match mc with
  | MC.Bull =>
      match get_valid_data env stock with
      | some df => if PF.gt (calculate_adx_last 14 df) (PF.fin 25) then (15, 40) else (20, 50)
      | none => (10, 30)
  | MC.Bear => (5, 20)
  | MC.Flat => (30, 70)
  | MC.Neutral => (10, 30)

/-- The float value `momentum / volatility` computed by `rank_assets`,
represented symbolically so it stays exact: `volatility` is the square
root of the rolling sample variance of the closes, so a finite nonzero
score is `val m v`, standing for the real number `m / √v` with `v > 0`
the variance.  Division by a zero volatility follows IEEE semantics
(numpy emits a warning, not an exception) and produces an infinity or,
for zero momentum, NaN. -/
inductive Score where
  | nan
  | ninf
  | pinf
  | val (m v : ℚ)
deriving DecidableEq

/-- Builds the score from the momentum (a numpy float) and the rolling
variance of the closes (`none` = NaN std). -/
def mkScore (momentum : PF) (variance : Option ℚ) : Score :=
  match variance with
  | none => Score.nan
  | some v =>
      if v ≤ 0 then
        match momentum with
        | PF.fin m => if 0 < m then Score.pinf else if m < 0 then Score.ninf else Score.nan
        | PF.pinf => Score.pinf
        | PF.ninf => Score.ninf
        | PF.nan => Score.nan
      else
        match momentum with
        | PF.fin m => Score.val m v
        | PF.pinf => Score.pinf
        | PF.ninf => Score.ninf
        | PF.nan => Score.nan

/-- Python `<` on two scores.  NaN compares false against everything.
For two finite scores `m₁/√v₁ < m₂/√v₂` (with `v₁, v₂ > 0`): if the
momenta have different signs the sign decides; if both are nonnegative
the comparison squares to `m₁²·v₂ < m₂²·v₁` (multiplying by
`√v₁·√v₂ > 0` and squaring the nonnegative sides); if both are negative
squaring reverses the inequality, giving `m₂²·v₁ < m₁²·v₂`. -/
def Score.slt : Score → Score → Bool
  | Score.nan, _ => false
  | _, Score.nan => false
  | Score.ninf, Score.ninf => false
  | Score.ninf, _ => true
  | _, Score.ninf => false
  | Score.pinf, _ => false
  | _, Score.pinf => true
  | Score.val m1 v1, Score.val m2 v2 =>
      if m1 < 0 then
        if m2 < 0 then decide (m2 ^ 2 * v1 < m1 ^ 2 * v2) else true
      else
        if m2 < 0 then false else decide (m1 ^ 2 * v2 < m2 ^ 2 * v1)

/-- Well-formed scores: not NaN, and a finite score carries a positive
variance (`mkScore` only builds finite scores that way).  On well-formed
scores the comparator `Score.slt` is asymmetric and negatively
transitive, so the stable descending sort below is the unique stable
descending order. -/
def Score.Wf : Score → Prop
  | Score.nan => False
  | Score.val _ v => 0 < v
  | _ => True

/-- The momentum of `rank_assets`:
`df["close"].iloc[-1] / df["close"].iloc[0] - 1` (numpy scalar
division; callers guarantee a nonempty frame, the defaults are never
read). -/
def momentumOf (closes : List ℚ) : PF :=
  PF.sub (pandasDivQ (closes.getLastD 0) (closes.headD 0)) (PF.fin 1)

/-- The score `rank_assets` assigns to one valid dataframe:
`momentum / volatility` with the 20-row rolling std of the closes. -/
def scoreOf (df : List Bar) : Score :=
  mkScore (momentumOf (closesOf df)) (rollingVarLast 20 (closesOf df))

/-- Stable descending insertion: the new element passes every strictly
greater element and stops before the first element it is not less than,
so earlier list elements stay ahead on ties. -/
def insertDesc (x : String × Score) : List (String × Score) → List (String × Score)
  | [] => [x]
  | y :: ys => if Score.slt x.2 y.2 then y :: insertDesc x ys else x :: y :: ys

/-- Embeds `sorted(scores, key=scores.get, reverse=True)` as a stable
descending sort of the (symbol, score) pairs.  On score sets free of
NaN the comparator is a strict weak order, every stable descending sort
agrees, and this equals CPython's Timsort output; with NaN keys CPython
leaves the order unspecified, and no theorem below relies on it. -/
def sortDescBy (l : List (String × Score)) : List (String × Score) :=
  l.foldr insertDesc []

/-- The scored, ordered pairs of `SMAMomentumBot.rank_assets`: one entry
per universe symbol with valid data (the dict insertion order is the
universe order; a fresh universe has no duplicate symbols so the dict
keys coincide with these entries).  Nothing in the loop body can raise
for valid data, so the try/except contributes nothing. -/
def rankScored (env : Env) (stocks : List String) : List (String × Score) :=
  sortDescBy (stocks.filterMap (fun s => (get_valid_data env s).map (fun df => (s, scoreOf df))))

/-- Embeds `SMAMomentumBot.rank_assets`. -/
def rank_assets (env : Env) (stocks : List String) : List String :=
  (rankScored env stocks).map Prod.fst

/-- Embeds `SMAMomentumBot.adjust_position_size_for_volatility(atr,
risk_amount, last_price)` on finite float arguments.  A nonpositive
last price returns 0 before anything else.  Otherwise the source
computes `int(risk_amount / (atr * atr_multiplier * last_price))`:
when the denominator is zero the numpy division yields ±inf or NaN and
`int()` raises (OverflowError / ValueError), modelled as `none`; when
it is nonzero the quotient is exact and `int` truncates toward zero. -/
def adjust_position_size_for_volatility (mc : MC) (atr risk_amount last_price : ℚ) :
    Option ℤ :=
  if last_price ≤ 0 then some 0
  else
    let atr_multiplier : ℚ := if mc = MC.Bull then 3 / 2 else 5 / 2
    let den := atr * atr_multiplier * last_price
    if den = 0 then none else some (pyInt (risk_amount / den))

/-- Embeds `total_weight = sum(1 / (index + 1) for index in
range(len(top_assets)))`. -/
def total_weight_of (n : ℕ) : ℚ :=
  qsum ((List.range n).map (fun i => 1 / ((i : ℚ) + 1)))

/-- The share quantity `allocate_positions` computes for the stock at
`index`: `allocation = 1 / (index + 1)**0.5 / total_weight`,
`risk_amount = available_cash * risk_per_trade * allocation`, and then
`adjust_position_size_for_volatility(atr, risk_amount, last_price)`.
Since `allocation` carries the irrational factor `1/√(index+1)`, the
truncated quotient is computed exactly as `truncDivSqrt q (index+1)`
with `q = cash·risk / (tw · atr · mult · price)`, because
`risk_amount / (atr·mult·price) = q / √(index+1)`.  The caller has
already checked `atr > 0` and `last_price > 0`, so the sizer's own
zero-denominator exception path is unreachable here; its
`last_price ≤ 0` early return is kept for fidelity. -/
def sizedQuantity (mc : MC) (risk cash tw : ℚ) (index : ℕ) (atr last_price : ℚ) : ℤ :=
  if last_price ≤ 0 then 0
  else
    let atr_multiplier : ℚ := if mc = MC.Bull then 3 / 2 else 5 / 2
    truncDivSqrt (cash * risk / (tw * (atr * atr_multiplier * last_price))) (index + 1)

/-- Embeds `SMAMomentumBot.place_trade(stock, quantity, atr,
last_price)`: nothing for a nonpositive quantity; the last price is
re-fetched (the same pure environment value) and rechecked; otherwise a
market buy with stop loss `price - 1.5·ATR` and take profit
`price + 2·ATR`.  A `submit_order` failure is caught and logged, so the
intent is still the one produced. -/
def place_trade (env : Env) (stock : String) (quantity : ℤ) (atr : ℚ) : Option Intent :=
  if quantity ≤ 0 then none
  else
    let last_price := env.lastPrice stock
    if last_price ≤ 0 then none
    else
      some { symbol := stock, side := Side.buy, quantity := quantity,
             stop_loss := some (last_price - 3 / 2 * atr),
             take_profit := some (last_price + 2 * atr) }

/-- Embeds `SMAMomentumBot.close_position(stock, last_price)`: a market
sell of the full held quantity when a positive position exists. -/
def close_position (env : Env) (stock : String) : Option Intent :=
  let q := env.positionQty stock
  if 0 < q then
    some { symbol := stock, side := Side.sell, quantity := (q : ℤ),
           stop_loss := none, take_profit := none }
  else none

/-- One iteration of the `allocate_positions` loop body for the stock at
position `index` of the top-ranked assets: data re-fetch and guards, SMA
values for the regime-dependent periods, the ATR guard
(`pd.isna(atr) or atr <= 0`), the last-price guard, sizing, and the
position-conditional trade decision (which, in this source, only acts
when a position is already held). -/
def allocate_step (env : Env) (mc : MC) (risk cash tw : ℚ) (index : ℕ) (stock : String) :
    Option Intent :=
  match env.hist stock with
  | none => none
  | some df =>
      if df.length = 0 then none
      else
        let closes := closesOf df
        let periods := get_asset_sma_periods env mc stock
        let sma_short_val := rollingMeanLast periods.1 closes
        let sma_long_val := rollingMeanLast periods.2 closes
        match calculate_atr_last 14 df with
        | none => none
        | some atr =>
            if atr ≤ 0 then none
            else
              let last_price := env.lastPrice stock
              if last_price ≤ 0 then none
              else
                let quantity := sizedQuantity mc risk cash tw index atr last_price
                let current_quantity := env.positionQty stock
                if 0 < current_quantity then
                  if optGt sma_short_val sma_long_val then
                    place_trade env stock quantity atr
                  else if optLt sma_short_val sma_long_val then
                    close_position env stock
                  else none
                else none

/-- Embeds `SMAMomentumBot.allocate_positions(top_assets)`: the ordered
list of intents the loop submits (at most one per symbol). -/
def allocate_positions (env : Env) (mc : MC) (risk : ℚ) (top_assets : List String) :
    List Intent :=
  let tw := total_weight_of top_assets.length
  top_assets.enum.filterMap (fun p => allocate_step env mc risk env.cash tw p.1 p.2)

/-- Embeds `calculate_drawdown` (identical in both strategies): the
updated peak `max(peak, portfolio_value)` paired with the drawdown
percentage.  When the updated peak is zero the Python float division
raises ZeroDivisionError, modelled as `none`. -/
def calculate_drawdown (peak portfolio_value : ℚ) : ℚ × Option ℚ :=
  let peak2 := max peak portfolio_value
  (peak2, if peak2 = 0 then none else some ((portfolio_value - peak2) / peak2 * 100))

/-- The running peak/drawdown pairs produced by calling
`calculate_drawdown` once per equity observation, threading the peak. -/
def drawdownTraceFrom (peak : ℚ) : List ℚ → List (ℚ × Option ℚ)
  | [] => []
  | v :: rest =>
      let r := calculate_drawdown peak v
      r :: drawdownTraceFrom r.1 rest

/-- The peak/drawdown trace from the initial `self.portfolio_peak = 0`. -/
def drawdown_trace (vals : List ℚ) : List (ℚ × Option ℚ) :=
  drawdownTraceFrom 0 vals

/-- Embeds `SMAMomentumBot.on_trading_iteration`: regime detection and
risk adjustment, universe filtering (overwriting `self.universe`), the
empty-universe early return, the drawdown circuit breaker, ranking, and
allocation over the top 3 ranked assets.  The result pairs the updated
instance state with the submitted intents; `none` is the uncaught
ZeroDivisionError of `calculate_drawdown` when the updated peak is
zero. -/
def on_trading_iteration (env : Env) (st : BotState) : Option (BotState × List Intent) :=
  let st1 := risk_adjustment_phase env st
  let st2 := { st1 with stock_universe :=
    st1.stock_universe.filter (fun s => (get_valid_data env s).isSome) }
  if st2.stock_universe.isEmpty then some (st2, [])
  else
    let dd := calculate_drawdown st2.portfolio_peak env.portfolio_value
    let st3 := { st2 with portfolio_peak := dd.1 }
    match dd.2 with
    | none => none
    | some d =>
        if d < -20 then some (st3, [])
        else
          let ranked := rank_assets env st3.stock_universe
          if ranked.isEmpty then some (st3, [])
          else
            some (st3, allocate_positions env st3.market_condition st3.risk_per_trade
              (ranked.take 3))

/-- The `SimpleMomentumBot` instance fields read by its per-symbol
trading step. -/
structure SimpleState where
  risk_per_trade : ℚ
  stop_loss_multiplier : ℚ
deriving DecidableEq

/-- Outcome of one symbol inside `regular_momentum_strategy`:
an uncaught exception (which aborts the whole pass), no order, or one
submitted order intent. -/
inductive SymbolOutcome where
  | crashed
  | noOrder
  | order (i : Intent)
deriving DecidableEq

/-- Embeds `SimpleMomentumBot.place_trade(stock, quantity)`: the last
price is fetched and checked (`None` or nonpositive skips; the
environment always has a numeric price, so only the sign check is
live), then a nonpositive quantity skips, then a market buy (with a
trailing stop, not modelled in `Intent`) is submitted. -/
def simple_place_trade (env : Env) (stock : String) (quantity : ℤ) : SymbolOutcome :=
  let last_price := env.lastPrice stock
  if last_price ≤ 0 then SymbolOutcome.noOrder
  else if quantity ≤ 0 then SymbolOutcome.noOrder
  else SymbolOutcome.order { symbol := stock, side := Side.buy, quantity := quantity,
                             stop_loss := none, take_profit := none }

/-- Embeds `SimpleMomentumBot.close_position(stock)`: a market sell of
the full held quantity when a positive position exists. -/
def simple_close_position (env : Env) (stock : String) : SymbolOutcome :=
  let q := env.positionQty stock
  if 0 < q then
    SymbolOutcome.order { symbol := stock, side := Side.sell, quantity := (q : ℤ),
                          stop_loss := none, take_profit := none }
  else SymbolOutcome.noOrder

/-- Embeds one iteration of the `SimpleMomentumBot.regular_momentum_strategy`
loop for one stock.  Missing data raises inside the try block and is
skipped (`continue`); an empty dataframe or a dataframe with fewer than
14 rows raises IndexError outside the try block (at `.iloc[-1]` on the
rolling SMA, respectively on the helper ATR after `dropna`), which
escapes the pass (`crashed`).  The SMA periods come from
`asset_specific_sma`, whose only key is "default", so they are always
`(10, 30)`.  After the validity guard on ATR and price, the position is
sized from the smaller of the 2 percent portfolio risk and cash, capped
by cash at the last price, and the SMA crossover with the current
position quantity decides the order. -/
def simple_symbol_step (env : Env) (st : SimpleState) (stock : String) : SymbolOutcome :=
  match env.hist stock with
  | none => SymbolOutcome.noOrder
  | some df =>
      if df.length = 0 then SymbolOutcome.crashed
      else
        let closes := closesOf df
        let sma_short := rollingMeanLast 10 closes
        let sma_long := rollingMeanLast 30 closes
        match helper_atr_last 14 df with
        | none => SymbolOutcome.crashed
        | some atr =>
            let last_price := env.lastPrice stock
            let current_quantity := env.positionQty stock
            if atr ≤ 0 ∨ last_price ≤ 0 then SymbolOutcome.noOrder
            else
              let portfolio_risk := st.risk_per_trade * env.portfolio_value
              let max_risk := min portfolio_risk env.cash
              let risk_per_share := atr * st.stop_loss_multiplier
              if 0 < risk_per_share then
                let quantity := min (pyInt (max_risk / risk_per_share))
                  (pyInt (env.cash / last_price))
                if optGt sma_short sma_long && decide (current_quantity = 0) then
                  simple_place_trade env stock quantity
                else if optLt sma_short sma_long && decide (0 < current_quantity) then
                  simple_close_position env stock
                else SymbolOutcome.noOrder
              else SymbolOutcome.noOrder

/-- The per-symbol decision table `SimpleMomentumBot` actually
implements, stated over the computed SMA values, the held quantity and
the sized quantity: a buy fires on `smaShort > smaLong` with no
position, but only a positive sized quantity produces an intent; a sell
of the full held quantity fires on `smaShort < smaLong` with a
position; everything else holds. -/
def simple_decision_table (stock : String) (smaS smaL : Option ℚ) (q : ℕ) (qty : ℤ) :
    SymbolOutcome :=
  if optGt smaS smaL && decide (q = 0) then
    if qty ≤ 0 then SymbolOutcome.noOrder
    else SymbolOutcome.order { symbol := stock, side := Side.buy, quantity := qty,
                               stop_loss := none, take_profit := none }
  else if optLt smaS smaL && decide (0 < q) then
    SymbolOutcome.order { symbol := stock, side := Side.sell, quantity := (q : ℤ),
                          stop_loss := none, take_profit := none }
  else SymbolOutcome.noOrder

/-- The per-symbol decision table `SMAMomentumBot.allocate_positions`
actually implements: nothing at all happens without an existing
position; with one, `smaShort > smaLong` buys the sized quantity (when
positive) with stop/take levels, and `smaShort < smaLong` sells the
full held quantity. -/
def sma_decision_table (last_price : ℚ) (stock : String) (smaS smaL : Option ℚ) (q : ℕ)
    (qty : ℤ) (atr : ℚ) : Option Intent :=
  if 0 < q then
    if optGt smaS smaL then
      if qty ≤ 0 then none
      else some { symbol := stock, side := Side.buy, quantity := qty,
                  stop_loss := some (last_price - 3 / 2 * atr),
                  take_profit := some (last_price + 2 * atr) }
    else if optLt smaS smaL then
      some { symbol := stock, side := Side.sell, quantity := (q : ℤ),
             stop_loss := none, take_profit := none }
    else none
  else none

/-- A 50-row dataframe with strictly rising closes 1..50 (so the 10-row
SMA exceeds the 30-row SMA) and a constant true range of 2. -/
def dfA : List Bar :=
  (List.range 50).map (fun j => { high := (j : ℚ) + 2, low := (j : ℚ), close := (j : ℚ) + 1 })

/-- Environment with one stock "A" (valid rising data), a positive last
price, no position held, and cash. -/
def envA : Env :=
  { hist := fun s => if s = "A" then some dfA else none,
    lastPrice := fun _ => 10,
    positionQty := fun _ => 0,
    cash := 10000,
    portfolio_value := 10000 }

/-- Simple-bot state with the initialized risk and stop multiplier. -/
def stSimple : SimpleState :=
  { risk_per_trade := 2 / 100, stop_loss_multiplier := 3 / 2 }

/-- A 200-row benchmark dataframe with closes 1..200 rising by 1 per
row: SMA(50) is above SMA(200), the SMA(50) slope is 1, and the 20-row
close variance is 35 (std √35 > 1.5), while the ATR is 1, far below 5
percent of the mean close, so there is no high-volatility guard. -/
def spyDf : List Bar :=
  (List.range 200).map (fun j => { high := (j : ℚ) + 1, low := (j : ℚ) + 1, close := (j : ℚ) + 1 })

/-- Environment whose only data is the SPY benchmark above. -/
def envSpy : Env :=
  { hist := fun s => if s = "SPY" then some spyDf else none,
    lastPrice := fun _ => 10, positionQty := fun _ => 0, cash := 1000,
    portfolio_value := 1000 }

/-- Freshly initialized `SMAMomentumBot` state (base risk 0.03, Neutral,
zero peak), with an empty universe so no claim depends on its assets. -/
def stInit : BotState :=
  { stock_universe := [], base_risk_per_trade := 3 / 100, risk_per_trade := 3 / 100,
    market_condition := MC.Neutral, portfolio_peak := 0 }

/-- A 50-row dataframe whose last 20 closes are all 10 (zero 20-row
volatility) after an initial stretch at 5 (so the momentum is 1 > 0 and
the score is +inf). -/
def dfZ : List Bar :=
  (List.range 50).map (fun j =>
    if j < 30 then { high := 5, low := 5, close := 5 }
    else { high := 10, low := 10, close := 10 })

/-- Environment holding only the zero-volatility stock "Z". -/
def envZ : Env :=
  { hist := fun s => if s = "Z" then some dfZ else none,
    lastPrice := fun _ => 10, positionQty := fun _ => 0, cash := 0, portfolio_value := 0 }

/-- A benchmark series that is available and nonempty but has a single
row. -/
def oneBar : List Bar := [{ high := 1, low := 1, close := 1 }]

/-- Environment whose SPY data is the single-row series above. -/
def envOneBar : Env :=
  { hist := fun s => if s = "SPY" then some oneBar else none,
    lastPrice := fun _ => 1, positionQty := fun _ => 0, cash := 0, portfolio_value := 1 }

/-- A 50-row constant dataframe: valid by row count, with zero ATR, so
the allocation loop skips it without any intent. -/
def dfConst : List Bar := List.replicate 50 { high := 5, low := 5, close := 5 }

/-- Cycle-1 environment for the universe persistence scenario: stock "A"
has valid data, stock "B" has none. -/
def env8a : Env :=
  { hist := fun s => if s = "A" then some dfConst else none,
    lastPrice := fun _ => 5, positionQty := fun _ => 0, cash := 100, portfolio_value := 100 }

/-- Cycle-2 environment: stock "B" now has valid data as well. -/
def env8b : Env :=
  { hist := fun s => if s = "A" ∨ s = "B" then some dfConst else none,
    lastPrice := fun _ => 5, positionQty := fun _ => 0, cash := 100, portfolio_value := 100 }

/-- Initial state whose universe contains both "A" and "B". -/
def st8 : BotState :=
  { stock_universe := ["A", "B"], base_risk_per_trade := 3 / 100, risk_per_trade := 3 / 100,
    market_condition := MC.Neutral, portfolio_peak := 0 }

/-- The state after cycle 1 of the universe persistence scenario. -/
def st8after : BotState :=
  { stock_universe := ["A"], base_risk_per_trade := 3 / 100, risk_per_trade := 3 / 100,
    market_condition := MC.Neutral, portfolio_peak := 100 }

/-- State whose recorded peak equity is 12000, against a portfolio value
of 9000: a drawdown of exactly -25 percent. -/
def stHalt : BotState :=
  { stock_universe := ["A"], base_risk_per_trade := 3 / 100, risk_per_trade := 3 / 100,
    market_condition := MC.Neutral, portfolio_peak := 12000 }

/-- Environment for the halted cycle: portfolio value 9000 and valid
constant data for "A". -/
def envHalt : Env :=
  { hist := fun s => if s = "A" then some dfConst else none,
    lastPrice := fun _ => 5, positionQty := fun _ => 0, cash := 100,
    portfolio_value := 9000 }

/-- A price series of 14 flat observations followed by one jump up: the
average loss over period 14 is exactly 0 while the average gain is
positive. -/
def risingTail : List ℚ := List.replicate 14 (100 : ℚ) ++ [200]

/-- Two-symbol environment with distinct finite scores: "X" rises
(positive momentum, positive variance), "Y" falls. -/
def envRank : Env :=
  { hist := fun s =>
      if s = "X" then some ((List.range 50).map (fun j =>
        { high := (j : ℚ) + 1, low := (j : ℚ) + 1, close := (j : ℚ) + 1 }))
      else if s = "Y" then some ((List.range 50).map (fun j =>
        { high := 100 - (j : ℚ), low := 100 - (j : ℚ), close := 100 - (j : ℚ) }))
      else none,
    lastPrice := fun _ => 1, positionQty := fun _ => 0, cash := 0, portfolio_value := 0 }

end Momentum

unseal Rat.add Rat.mul Rat.sub Rat.inv Rat.ofScientific

namespace Momentum

set_option maxRecDepth 100000

/-- The truncation `pyInt` of a nonnegative rational is nonnegative. -/
theorem pyInt_nonneg (q : ℚ) (h : 0 ≤ q) : 0 ≤ pyInt q := by
  unfold pyInt
  rw [if_pos h]
  exact Int.floor_nonneg.mpr h

/-- C3 counterexample: at `ATR = -1`, `riskAmount = 100`,
`lastPrice = 10` the position sizer returns the negative quantity -4
(not 0); at `ATR = 0` it does not return at all (the division yields an
IEEE infinity and `int()` raises). -/
theorem C3_counterexample :
    adjust_position_size_for_volatility MC.Flat (-1) 100 10 = some (-4) ∧
    some (-4 : ℤ) ≠ some (0 : ℤ) ∧
    (-4 : ℤ) < 0 ∧
    adjust_position_size_for_volatility MC.Flat 0 100 10 = none := by decide

/-- C3 (amended): the position sizer returns 0 whenever
`lastPrice ≤ 0`; the `ATR ≤ 0` guard lives in the caller, not in the
sizer, and only under the caller's guards (`ATR > 0`, `lastPrice > 0`)
together with a nonnegative risk amount is the result defined and
nonnegative. -/
theorem C3_sizer_guarded (mc : MC) (atr risk_amount last_price : ℚ) :
    (last_price ≤ 0 →
      adjust_position_size_for_volatility mc atr risk_amount last_price = some 0) ∧
    (0 < atr → 0 < last_price →
      adjust_position_size_for_volatility mc atr risk_amount last_price =
        some (pyInt (risk_amount /
          (atr * (if mc = MC.Bull then (3 : ℚ) / 2 else 5 / 2) * last_price))) ∧
      (0 ≤ risk_amount →
        0 ≤ pyInt (risk_amount /
          (atr * (if mc = MC.Bull then (3 : ℚ) / 2 else 5 / 2) * last_price)))) := by
  constructor
  · intro h
    unfold adjust_position_size_for_volatility
    rw [if_pos h]
  · intro ha hp
    have hmul : (0 : ℚ) < (if mc = MC.Bull then (3 : ℚ) / 2 else 5 / 2) := by
      split <;> norm_num
    have hden : (0 : ℚ) < atr * (if mc = MC.Bull then (3 : ℚ) / 2 else 5 / 2) * last_price := by
      positivity
    constructor
    · unfold adjust_position_size_for_volatility
      rw [if_neg (not_le.mpr hp), if_neg (ne_of_gt hden)]
    · intro hr
      exact pyInt_nonneg _ (div_nonneg hr hden.le)

/-- C3 witness: the guarded statements evaluated at concrete inputs. -/
theorem C3_witness :
    adjust_position_size_for_volatility MC.Flat 1 100 0 = some 0 ∧
    adjust_position_size_for_volatility MC.Bull 2 300 10 =
      some (pyInt ((300 : ℚ) / (2 * (3 / 2) * 10))) ∧
    0 ≤ pyInt ((300 : ℚ) / (2 * (3 / 2) * 10)) := by
  refine ⟨(C3_sizer_guarded MC.Flat 1 100 0).1 (by norm_num), ?_, ?_⟩
  · have h := ((C3_sizer_guarded MC.Bull 2 300 10).2 (by norm_num) (by norm_num)).1
    simpa using h
  · have h := ((C3_sizer_guarded MC.Bull 2 300 10).2 (by norm_num) (by norm_num)).2 (by norm_num)
    simpa using h

/-- Invariants of the threaded peak/drawdown computation from any
nonnegative starting peak: the peak sequence never decreases and every
defined drawdown is nonpositive. -/
theorem drawdownTraceFrom_spec (vals : List ℚ) :
    ∀ peak : ℚ, 0 ≤ peak →
      List.Chain' (fun a b => a ≤ b) (peak :: (drawdownTraceFrom peak vals).map Prod.fst) ∧
      ∀ p ∈ drawdownTraceFrom peak vals, 0 ≤ p.1 ∧ ∀ d, p.2 = some d → d ≤ 0 := by
  induction vals with
  | nil => intro peak _; simp [drawdownTraceFrom]
  | cons v rest ih =>
      intro peak hpeak
      have hstep : peak ≤ max peak v := le_max_left _ _
      have hnonneg : 0 ≤ max peak v := le_trans hpeak hstep
      obtain ⟨ihchain, ihmem⟩ := ih (max peak v) hnonneg
      constructor
      · simp only [drawdownTraceFrom, calculate_drawdown, List.map_cons, List.chain'_cons]
        exact ⟨hstep, ihchain⟩
      · intro p hp
        simp only [drawdownTraceFrom, List.mem_cons] at hp
        rcases hp with hp | hp
        · subst hp
          refine ⟨hnonneg, ?_⟩
          intro d hd
          simp only [calculate_drawdown] at hd
          by_cases hz : max peak v = 0
          · rw [if_pos hz] at hd; exact absurd hd (by simp)
          · rw [if_neg hz] at hd
            have hnum : v - max peak v ≤ 0 := sub_nonpos.mpr (le_max_right _ _)
            have hq : (v - max peak v) / max peak v ≤ 0 :=
              div_nonpos_of_nonpos_of_nonneg hnum hnonneg
            have hm : (v - max peak v) / max peak v * 100 ≤ 0 :=
              mul_nonpos_of_nonpos_of_nonneg hq (by norm_num)
            have hdq : (v - max peak v) / max peak v * 100 = d := Option.some.inj hd
            exact hdq ▸ hm
        · have hfst : (calculate_drawdown peak v).1 = max peak v := rfl
          rw [hfst] at hp
          exact ihmem p hp

/-- C5: across any sequence of equity observations the running peak
(starting at 0) is monotonically non-decreasing, and every drawdown the
code manages to compute is ≤ 0. -/
theorem C5_drawdown_invariant (vals : List ℚ) :
    List.Chain' (fun a b => a ≤ b) (0 :: (drawdown_trace vals).map Prod.fst) ∧
    ∀ p ∈ drawdown_trace vals, ∀ d, p.2 = some d → d ≤ 0 := by
  obtain ⟨h1, h2⟩ := drawdownTraceFrom_spec vals 0 le_rfl
  exact ⟨h1, fun p hp => (h2 p hp).2⟩

/-- C5 witness: the invariant evaluated on the observations [5, 3]. -/
theorem C5_witness :
    List.Chain' (fun a b => a ≤ b) (0 :: (drawdown_trace [5, 3]).map Prod.fst) ∧
    (-40 : ℚ) ≤ 0 :=
  ⟨(C5_drawdown_invariant [5, 3]).1,
   (C5_drawdown_invariant [5, 3]).2 (5, some (-40)) (by decide) (-40) rfl⟩

/-- C10: while every observed portfolio value is nonpositive the peak
stays 0 and every call divides by zero (raises), so the drawdown is
undefined. -/
theorem C10_drawdown_needs_positive_equity (vals : List ℚ) (h : ∀ v ∈ vals, v ≤ 0) :
    ∀ p ∈ drawdown_trace vals, p.1 = 0 ∧ p.2 = none := by
  unfold drawdown_trace
  induction vals with
  | nil => simp [drawdownTraceFrom]
  | cons v rest ih =>
      have hv : v ≤ 0 := h v (by simp)
      have hmax : max (0 : ℚ) v = 0 := max_eq_left hv
      intro p hp
      simp only [drawdownTraceFrom, calculate_drawdown, hmax, List.mem_cons] at hp
      rcases hp with hp | hp
      · subst hp
        simp
      · exact ih (fun w hw => h w (by simp [hw])) p hp

/-- C10 witness: the statement applied to the observations [0, -3]. -/
theorem C10_witness :
    ((0 : ℚ), (none : Option ℚ)).1 = 0 ∧ ((0 : ℚ), (none : Option ℚ)).2 = none :=
  C10_drawdown_needs_positive_equity [0, -3] (by decide) (0, none) (by decide)

end Momentum

namespace Momentum

set_option maxRecDepth 100000

/-- `detect_market_condition` never changes the base risk fraction, the
universe, or the recorded peak. -/
theorem detect_market_condition_fields (env : Env) (st : BotState) :
    (detect_market_condition env st).base_risk_per_trade = st.base_risk_per_trade ∧
    (detect_market_condition env st).stock_universe = st.stock_universe ∧
    (detect_market_condition env st).portfolio_peak = st.portfolio_peak := by
  unfold detect_market_condition adjust_risk_based_on_market
  cases get_valid_data env "SPY" <;> simp

/-- `risk_adjustment_phase` never changes the base risk fraction, the
universe, or the recorded peak. -/
theorem risk_adjustment_phase_fields (env : Env) (st : BotState) :
    (risk_adjustment_phase env st).base_risk_per_trade = st.base_risk_per_trade ∧
    (risk_adjustment_phase env st).stock_universe = st.stock_universe ∧
    (risk_adjustment_phase env st).portfolio_peak = st.portfolio_peak := by
  obtain ⟨h1, h2, h3⟩ := detect_market_condition_fields env st
  unfold risk_adjustment_phase adjust_for_volatility
  by_cases h : detect_high_volatility env <;> simp [h, h1, h2, h3]

/-- C2 (amended): after the per-cycle risk-adjustment phase the current
risk fraction equals baseRiskFraction times the volatility multiplier
alone (0.5 under the high-volatility guard, else 1), recomputed from the
base with no carry-over; the regime multiplier is applied inside
`detect_market_condition` but is then overwritten by
`adjust_for_volatility`, so it never reaches position sizing. -/
theorem C2_risk_recompute (env : Env) (st : BotState) :
    (risk_adjustment_phase env st).risk_per_trade =
      st.base_risk_per_trade * (if detect_high_volatility env then 1 / 2 else 1) ∧
    (risk_adjustment_phase env st).base_risk_per_trade = st.base_risk_per_trade ∧
    (∀ df, get_valid_data env "SPY" = some df →
      (detect_market_condition env st).risk_per_trade =
        st.base_risk_per_trade *
          risk_multiplier (detect_market_condition env st).market_condition) := by
  refine ⟨?_, (risk_adjustment_phase_fields env st).1, ?_⟩
  · have hbase := (detect_market_condition_fields env st).1
    unfold risk_adjustment_phase adjust_for_volatility
    by_cases h : detect_high_volatility env <;> simp [h, hbase]
  · intro df hdf
    unfold detect_market_condition adjust_risk_based_on_market
    rw [hdf]

/-- C2 counterexample: with the rising benchmark the detected regime is
Bull and there is no high-volatility guard, so the claim requires
currentRiskFraction = 0.03 × 5 × 1 = 0.15; the code leaves 0.03, because
`adjust_for_volatility` overwrites the regime-adjusted value from the
base. -/
theorem C2_counterexample :
    (risk_adjustment_phase envSpy stInit).market_condition = MC.Bull ∧
    detect_high_volatility envSpy = false ∧
    (risk_adjustment_phase envSpy stInit).risk_per_trade = 3 / 100 ∧
    stInit.base_risk_per_trade * risk_multiplier MC.Bull * 1 = 3 / 20 ∧
    (3 / 100 : ℚ) ≠ 3 / 20 := by decide

/-- C2 witness: the recomputation law evaluated on the rising-benchmark
environment. -/
theorem C2_witness :
    (risk_adjustment_phase envSpy stInit).risk_per_trade =
      stInit.base_risk_per_trade * (if detect_high_volatility envSpy then 1 / 2 else 1) ∧
    (detect_market_condition envSpy stInit).risk_per_trade =
      stInit.base_risk_per_trade *
        risk_multiplier (detect_market_condition envSpy stInit).market_condition :=
  ⟨(C2_risk_recompute envSpy stInit).1,
   (C2_risk_recompute envSpy stInit).2.2 spyDf (by decide)⟩

end Momentum

namespace Momentum

set_option maxRecDepth 100000

/-- C6: whenever the drawdown the cycle would compute is strictly below
-20 the iteration emits no intents, and the scenario equity sequence
[10000, 12000, 9000] produces the peak sequence [10000, 12000, 12000]
with drawdown -25 at the third observation. -/
theorem C6_drawdown_gate :
    (∀ (env : Env) (st : BotState) (d : ℚ),
      (calculate_drawdown st.portfolio_peak env.portfolio_value).2 = some d → d < -20 →
      (on_trading_iteration env st).map (fun r => r.2) = some []) ∧
    drawdown_trace [10000, 12000, 9000] =
      [(10000, some 0), (12000, some 0), (12000, some (-25))] := by
  constructor
  · intro env st d hd hlt
    have hpeak : (risk_adjustment_phase env st).portfolio_peak = st.portfolio_peak :=
      (risk_adjustment_phase_fields env st).2.2
    simp only [on_trading_iteration, hpeak, hd, hlt, if_true]
    split
    · simp
    · simp
  · decide

/-- C6 witness: the halted cycle at peak 12000 and equity 9000. -/
theorem C6_witness :
    (calculate_drawdown stHalt.portfolio_peak envHalt.portfolio_value).2 = some (-25) ∧
    (-25 : ℚ) < -20 ∧
    (on_trading_iteration envHalt stHalt).map (fun r => r.2) = some [] :=
  ⟨by decide, by norm_num,
   C6_drawdown_gate.1 envHalt stHalt (-25) (by decide) (by norm_num)⟩

/-- C8 counterexample: with universe [A, B], a cycle in which B has no
data permanently overwrites the universe to [A]; in the next cycle B has
valid data, yet the universe after that cycle is still [A]. -/
theorem C8_counterexample :
    (on_trading_iteration env8a st8).map (fun r => r.1.stock_universe) = some ["A"] ∧
    (get_valid_data env8b "B").isSome = true ∧
    ((on_trading_iteration env8a st8).bind (fun r => on_trading_iteration env8b r.1)).map
      (fun r => r.1.stock_universe) = some ["A"] := by decide

/-- C8 (amended): every completed cycle of `SMAMomentumBot` overwrites
the instance universe with exactly the symbols that currently have
valid data — so the symbols with valid data are all retained and
evaluated in that cycle, but a symbol once dropped is absent from the
state and stays excluded from every later cycle. -/
theorem C8_universe_overwritten (env : Env) (st : BotState) (r : BotState × List Intent)
    (h : on_trading_iteration env st = some r) :
    r.1.stock_universe =
      st.stock_universe.filter (fun s => (get_valid_data env s).isSome) ∧
    ∀ s, s ∉ st.stock_universe → s ∉ r.1.stock_universe := by
  have huni : (risk_adjustment_phase env st).stock_universe = st.stock_universe :=
    (risk_adjustment_phase_fields env st).2.1
  have h1 : r.1.stock_universe =
      st.stock_universe.filter (fun s => (get_valid_data env s).isSome) := by
    simp only [on_trading_iteration, huni] at h
    split at h
    · cases h; rfl
    · split at h
      · exact absurd h (by simp)
      · split at h
        · cases h; rfl
        · split at h
          · cases h; rfl
          · cases h; rfl
  refine ⟨h1, ?_⟩
  intro s hs hmem
  rw [h1] at hmem
  exact hs (List.mem_of_mem_filter hmem)

/-- C8 witness: the overwrite law evaluated on the two-symbol scenario
(the symbol "C" was never in the universe and stays out). -/
theorem C8_witness :
    st8after.stock_universe =
      st8.stock_universe.filter (fun s => (get_valid_data env8a s).isSome) ∧
    "C" ∉ st8after.stock_universe :=
  ⟨(C8_universe_overwritten env8a st8 (st8after, []) (by decide)).1,
   (C8_universe_overwritten env8a st8 (st8after, []) (by decide)).2 "C" (by decide)⟩

end Momentum

namespace Momentum

set_option maxRecDepth 100000

/-- A dataframe that is present with at least 50 rows passes
`get_valid_data`. -/
theorem get_valid_data_some (env : Env) (stock : String) (df : List Bar)
    (h1 : env.hist stock = some df) (h2 : 50 ≤ df.length) :
    get_valid_data env stock = some df := by
  unfold get_valid_data
  rw [h1]
  have h0 : ¬ (df.length = 0 ∨ df.length < 50) := by omega
  exact if_neg h0

/-- `get_valid_data` rejects exactly the missing and the short
dataframes. -/
theorem get_valid_data_none_iff (env : Env) (stock : String) :
    get_valid_data env stock = none ↔
      (env.hist stock = none ∨ ∃ df, env.hist stock = some df ∧ df.length < 50) := by
  unfold get_valid_data
  rcases h : env.hist stock with _ | df
  · simp
  · constructor
    · intro hn
      have hn2 : (if df.length = 0 ∨ df.length < 50 then (none : Option (List Bar))
          else some df) = none := hn
      by_cases hc : df.length = 0 ∨ df.length < 50
      · exact Or.inr ⟨df, rfl, by omega⟩
      · rw [if_neg hc] at hn2
        cases hn2
    · rintro (hcontra | ⟨df2, hdf2, hlen⟩)
      · cases hcontra
      · injection hdf2 with h2
        subst h2
        have hc : df.length = 0 ∨ df.length < 50 := Or.inr hlen
        exact if_pos hc

/-- On valid benchmark data the detected condition is the Bull/Bear/Flat
three-way decision of the source, expressed over the indicator values of
that dataframe. -/
theorem detect_market_condition_valid (env : Env) (st : BotState) (df : List Bar)
    (h : get_valid_data env "SPY" = some df) :
    (detect_market_condition env st).market_condition =
      (if (optGt (spy_weighted_slope (closesOf df))
             (some (spy_slope_threshold (closesOf df))) &&
           optGt (rollingMeanLast 50 (closesOf df)) (rollingMeanLast 200 (closesOf df)))
          = true then MC.Bull
       else if (optLt (spy_weighted_slope (closesOf df))
                  (some (-spy_slope_threshold (closesOf df))) &&
                optLt (rollingMeanLast 50 (closesOf df))
                  (rollingMeanLast 200 (closesOf df))) = true then MC.Bear
       else MC.Flat) := by
  unfold detect_market_condition adjust_risk_based_on_market
  rw [h]

/-- Missing or short benchmark data gives the Neutral fallback. -/
theorem detect_market_condition_invalid (env : Env) (st : BotState)
    (h : get_valid_data env "SPY" = none) :
    (detect_market_condition env st).market_condition = MC.Neutral := by
  unfold detect_market_condition
  rw [h]

/-- C7 counterexample: a benchmark series that is available and nonempty
(one row) still classifies as Neutral, because `get_valid_data` also
rejects series shorter than 50 rows. -/
theorem C7_counterexample :
    (detect_market_condition envOneBar stInit).market_condition = MC.Neutral ∧
    envOneBar.hist "SPY" = some oneBar ∧
    oneBar ≠ ([] : List Bar) := by decide

/-- C7 (amended): on a benchmark series of at least 200 rows the
classifier returns Bull exactly when the mean of the five most recent
one-step SMA(50) differences exceeds the dynamic threshold (0.05 when
the 20-row close std exceeds 1.5, else 0.1) and SMA(50) > SMA(200), and
Bear exactly in the mirrored case not already Bull, and Flat otherwise;
Neutral is returned exactly when the benchmark series is unavailable,
empty, or shorter than 50 rows — not only when unavailable or empty. -/
theorem C7_regime_classifier :
    (∀ (env : Env) (st : BotState) (df : List Bar), env.hist "SPY" = some df →
      200 ≤ df.length →
      (((detect_market_condition env st).market_condition = MC.Bull ↔
        (optGt (spy_weighted_slope (closesOf df))
            (some (spy_slope_threshold (closesOf df))) = true ∧
         optGt (rollingMeanLast 50 (closesOf df))
            (rollingMeanLast 200 (closesOf df)) = true)) ∧
       ((detect_market_condition env st).market_condition = MC.Bear ↔
        ((optLt (spy_weighted_slope (closesOf df))
            (some (-spy_slope_threshold (closesOf df))) = true ∧
          optLt (rollingMeanLast 50 (closesOf df))
            (rollingMeanLast 200 (closesOf df)) = true) ∧
         ¬ (optGt (spy_weighted_slope (closesOf df))
              (some (spy_slope_threshold (closesOf df))) = true ∧
            optGt (rollingMeanLast 50 (closesOf df))
              (rollingMeanLast 200 (closesOf df)) = true))) ∧
       ((detect_market_condition env st).market_condition = MC.Flat ↔
        (¬ (optGt (spy_weighted_slope (closesOf df))
              (some (spy_slope_threshold (closesOf df))) = true ∧
            optGt (rollingMeanLast 50 (closesOf df))
              (rollingMeanLast 200 (closesOf df)) = true) ∧
         ¬ (optLt (spy_weighted_slope (closesOf df))
              (some (-spy_slope_threshold (closesOf df))) = true ∧
            optLt (rollingMeanLast 50 (closesOf df))
              (rollingMeanLast 200 (closesOf df)) = true))))) ∧
    (∀ (env : Env) (st : BotState),
      (detect_market_condition env st).market_condition = MC.Neutral ↔
        (env.hist "SPY" = none ∨
         ∃ df, env.hist "SPY" = some df ∧ df.length < 50)) := by
  constructor
  · intro env st df hdf hlen
    have hvalid : get_valid_data env "SPY" = some df :=
      get_valid_data_some env "SPY" df hdf (by omega)
    rw [detect_market_condition_valid env st df hvalid]
    by_cases hb : optGt (spy_weighted_slope (closesOf df))
        (some (spy_slope_threshold (closesOf df))) = true ∧
        optGt (rollingMeanLast 50 (closesOf df))
          (rollingMeanLast 200 (closesOf df)) = true
    · rw [if_pos (by rw [Bool.and_eq_true]; exact hb)]
      exact ⟨by simp [hb], by simp [hb], by simp [hb]⟩
    · rw [if_neg (by rw [Bool.and_eq_true]; exact hb)]
      by_cases hr : optLt (spy_weighted_slope (closesOf df))
          (some (-spy_slope_threshold (closesOf df))) = true ∧
          optLt (rollingMeanLast 50 (closesOf df))
            (rollingMeanLast 200 (closesOf df)) = true
      · rw [if_pos (by rw [Bool.and_eq_true]; exact hr)]
        exact ⟨by simp [hb], by simp [hb, hr], by simp [hr]⟩
      · rw [if_neg (by rw [Bool.and_eq_true]; exact hr)]
        exact ⟨by simp [hb], by simp [hb, hr], by simp [hb, hr]⟩
  · intro env st
    constructor
    · intro h
      rcases hgv : get_valid_data env "SPY" with _ | df2
      · exact (get_valid_data_none_iff env "SPY").mp hgv
      · exfalso
        rw [detect_market_condition_valid env st df2 hgv] at h
        revert h
        split
        · simp
        · split <;> simp
    · intro h
      have hgv : get_valid_data env "SPY" = none :=
        (get_valid_data_none_iff env "SPY").mpr h
      exact detect_market_condition_invalid env st hgv

/-- C7 witness: the rising 200-row benchmark classifies as Bull by the
stated rule, and the single-row benchmark classifies as Neutral. -/
theorem C7_witness :
    (detect_market_condition envSpy stInit).market_condition = MC.Bull ∧
    (detect_market_condition envOneBar stInit).market_condition = MC.Neutral :=
  ⟨((C7_regime_classifier.1 envSpy stInit spyDf (by decide) (by decide)).1).mpr
      ⟨by decide, by decide⟩,
   (C7_regime_classifier.2 envOneBar stInit).mpr
      (Or.inr ⟨oneBar, by decide, by decide⟩)⟩

end Momentum

namespace Momentum

set_option maxRecDepth 100000

/-- A fold-sum of nonnegative rationals is nonnegative. -/
theorem qsum_nonneg (l : List ℚ) (h : ∀ x ∈ l, 0 ≤ x) : 0 ≤ qsum l := by
  induction l with
  | nil => simp [qsum]
  | cons a t ih =>
      have ha : 0 ≤ a := h a (by simp)
      have ht : 0 ≤ qsum t := ih (fun x hx => h x (by simp [hx]))
      have : qsum (a :: t) = a + qsum t := rfl
      rw [this]
      exact add_nonneg ha ht

/-- A fold-sum of nonpositive rationals is nonpositive. -/
theorem qsum_nonpos (l : List ℚ) (h : ∀ x ∈ l, x ≤ 0) : qsum l ≤ 0 := by
  induction l with
  | nil => simp [qsum]
  | cons a t ih =>
      have ha : a ≤ 0 := h a (by simp)
      have ht : qsum t ≤ 0 := ih (fun x hx => h x (by simp [hx]))
      have : qsum (a :: t) = a + qsum t := rfl
      rw [this]
      exact add_nonpos ha ht

/-- The last-window rolling mean of a nonnegative series is
nonnegative. -/
theorem rollingMeanLast_nonneg (n : ℕ) (l : List ℚ) (h : ∀ x ∈ l, 0 ≤ x) (m : ℚ)
    (hm : rollingMeanLast n l = some m) : 0 ≤ m := by
  unfold rollingMeanLast at hm
  by_cases hc : l.length < n ∨ n = 0
  · rw [if_pos hc] at hm; cases hm
  · rw [if_neg hc] at hm
    have hmv : qmean (lastN n l) = m := Option.some.inj hm
    have hsub : ∀ x ∈ lastN n l, 0 ≤ x := fun x hx => h x (List.drop_subset _ l hx)
    have : 0 ≤ qmean (lastN n l) :=
      div_nonneg (qsum_nonneg _ hsub) (Nat.cast_nonneg _)
    exact hmv ▸ this

/-- The last-window rolling mean of a nonpositive series is
nonpositive. -/
theorem rollingMeanLast_nonpos (n : ℕ) (l : List ℚ) (h : ∀ x ∈ l, x ≤ 0) (m : ℚ)
    (hm : rollingMeanLast n l = some m) : m ≤ 0 := by
  unfold rollingMeanLast at hm
  by_cases hc : l.length < n ∨ n = 0
  · rw [if_pos hc] at hm; cases hm
  · rw [if_neg hc] at hm
    have hmv : qmean (lastN n l) = m := Option.some.inj hm
    have hsub : ∀ x ∈ lastN n l, x ≤ 0 := fun x hx => h x (List.drop_subset _ l hx)
    have : qmean (lastN n l) ≤ 0 :=
      div_nonpos_of_nonpos_of_nonneg (qsum_nonpos _ hsub) (Nat.cast_nonneg _)
    exact hmv ▸ this

/-- Every element of the `gains` series is nonnegative. -/
theorem gains_nonneg (prices : List ℚ) : ∀ x ∈ gains prices, 0 ≤ x := by
  intro x hx
  unfold gains at hx
  rcases List.mem_cons.mp hx with hx | hx
  · subst hx; exact le_rfl
  · obtain ⟨p, _, hp⟩ := List.mem_map.mp hx
    subst hp
    split <;> linarith

/-- Every element of the `negdeltas` series is nonpositive. -/
theorem negdeltas_nonpos (prices : List ℚ) : ∀ x ∈ negdeltas prices, x ≤ 0 := by
  intro x hx
  unfold negdeltas at hx
  rcases List.mem_cons.mp hx with hx | hx
  · subst hx; exact le_rfl
  · obtain ⟨p, _, hp⟩ := List.mem_map.mp hx
    subst hp
    split <;> linarith

/-- A defined average gain is nonnegative. -/
theorem avg_gain_last_nonneg (period : ℕ) (prices : List ℚ) (g : ℚ)
    (h : avg_gain_last period prices = some g) : 0 ≤ g :=
  rollingMeanLast_nonneg period (gains prices) (gains_nonneg prices) g h

/-- A defined average loss is nonnegative. -/
theorem avg_loss_last_nonneg (period : ℕ) (prices : List ℚ) (l : ℚ)
    (h : avg_loss_last period prices = some l) : 0 ≤ l := by
  unfold avg_loss_last at h
  rcases hm : rollingMeanLast period (negdeltas prices) with _ | m
  · rw [hm] at h; cases h
  · rw [hm] at h
    have hml : -m = l := Option.some.inj h
    have : m ≤ 0 := rollingMeanLast_nonpos period (negdeltas prices)
      (negdeltas_nonpos prices) m hm
    rw [← hml]
    linarith

/-- C9 counterexample: for a constant price series of 15 observations
(period 14) the average loss is exactly 0, yet the RSI is NaN — not 100
— because the average gain is also 0 and `rs = 0/0` is NaN; there is no
explicit division-by-zero guard in the code. -/
theorem C9_counterexample :
    avg_loss_last 14 (List.replicate 15 (100 : ℚ)) = some 0 ∧
    rsi_last 14 (List.replicate 15 (100 : ℚ)) = some PF.nan ∧
    some PF.nan ≠ some (PF.fin 100) := by decide

/-- C9 (amended): every finite RSI value lies in [0, 100], and the RSI
is 100 whenever the average loss is 0 while the average gain is
positive (via IEEE infinity propagation, not an explicit guard); when
both rolling averages are 0 the RSI is NaN instead (see the
counterexample).  Every non-final row of the pandas RSI series is this
same computation on the corresponding price prefix, so the bound covers
all rows. -/
theorem C9_rsi_bounds (period : ℕ) (prices : List ℚ) :
    (∀ x : ℚ, rsi_last period prices = some (PF.fin x) → 0 ≤ x ∧ x ≤ 100) ∧
    (∀ g : ℚ, avg_gain_last period prices = some g → 0 < g →
      avg_loss_last period prices = some 0 → ¬ prices.length < period →
      rsi_last period prices = some (PF.fin 100)) := by
  constructor
  · intro x hx
    unfold rsi_last at hx
    by_cases hlen : prices.length < period
    · rw [if_pos hlen] at hx; cases hx
    · rw [if_neg hlen] at hx
      rcases hg : avg_gain_last period prices with _ | g
      · rw [hg] at hx; simp at hx
      · rcases hl : avg_loss_last period prices with _ | l
        · rw [hg, hl] at hx; simp at hx
        · rw [hg, hl] at hx
          have hgpos : 0 ≤ g := avg_gain_last_nonneg period prices g hg
          have hlpos : 0 ≤ l := avg_loss_last_nonneg period prices l hl
          by_cases hlz : l = 0
          · subst hlz
            by_cases hgz : 0 < g
            · simp only [pandasDivQ, if_pos rfl, if_pos hgz] at hx
              simp only [PF.add, PF.div, PF.sub, PF.neg] at hx
              have hx2 : (100 : ℚ) + -0 = x := by
                have := Option.some.inj hx
                exact PF.fin.inj this
              constructor <;> linarith
            · have hgz2 : g = 0 := le_antisymm (not_lt.mp hgz) hgpos
              subst hgz2
              simp only [pandasDivQ, if_pos rfl] at hx
              norm_num at hx
              simp only [PF.add, PF.div, PF.sub, PF.neg] at hx
              cases hx
          · have hlpos2 : 0 < l := lt_of_le_of_ne hlpos (Ne.symm hlz)
            simp only [pandasDivQ, if_neg hlz] at hx
            have hb : (0 : ℚ) < 1 + g / l := by positivity
            simp only [PF.add] at hx
            simp only [PF.div, if_neg (ne_of_gt hb)] at hx
            simp only [PF.sub, PF.neg, PF.add] at hx
            have hx2 : (100 : ℚ) + -(100 / (1 + g / l)) = x := by
              have := Option.some.inj hx
              exact PF.fin.inj this
            have hq : 0 ≤ g / l := div_nonneg hgpos hlpos
            have hble : (1 : ℚ) ≤ 1 + g / l := by linarith
            have hdivle : (100 : ℚ) / (1 + g / l) ≤ 100 := by
              calc (100 : ℚ) / (1 + g / l) ≤ 100 / 1 := by
                    apply div_le_div_of_nonneg_left (by norm_num) (by norm_num) hble
                _ = 100 := by norm_num
            have hdivpos : (0 : ℚ) < 100 / (1 + g / l) := by positivity
            constructor <;> linarith
  · intro g hg hgpos hl hlen
    unfold rsi_last
    rw [if_neg hlen, hg, hl]
    simp only [pandasDivQ, if_pos rfl, if_pos hgpos]
    simp only [PF.add, PF.div, PF.sub, PF.neg]
    norm_num

/-- C9 witness: the bound and the average-loss-zero case evaluated on a
series of 14 flat prices followed by one rise, where the RSI is exactly
100. -/
theorem C9_witness :
    rsi_last 14 risingTail = some (PF.fin 100) ∧
    0 ≤ (100 : ℚ) ∧ (100 : ℚ) ≤ 100 :=
  ⟨(C9_rsi_bounds 14 risingTail).2 (50 / 7) (by decide) (by norm_num) (by decide) (by decide),
   ((C9_rsi_bounds 14 risingTail).1 100 (by decide)).1,
   ((C9_rsi_bounds 14 risingTail).1 100 (by decide)).2⟩

end Momentum

namespace Momentum

set_option maxRecDepth 100000

/-- C1 counterexample: stock "A" has valid data, a computed short SMA
strictly above the long SMA, a positive ATR and last price, a positive
sized quantity, and a held quantity of 0 — the claim demands exactly
one Buy intent, but `SMAMomentumBot.allocate_positions` emits
nothing. -/
theorem C1_counterexample :
    optGt (rollingMeanLast 10 (closesOf dfA)) (rollingMeanLast 30 (closesOf dfA)) = true ∧
    envA.positionQty "A" = 0 ∧
    calculate_atr_last 14 dfA = some 2 ∧
    envA.lastPrice "A" = 10 ∧
    0 < sizedQuantity MC.Neutral (3 / 100) envA.cash (total_weight_of 1) 0 2 10 ∧
    allocate_positions envA MC.Neutral (3 / 100) ["A"] = [] := by decide

/-- C1 (amended): under valid data (`ATR > 0`, `lastPrice > 0`, data
present and nonempty) each bot's per-symbol pass equals its decision
table.  `SimpleMomentumBot` implements the claimed transitions except
that a buy whose sized quantity is not positive emits nothing;
`SMAMomentumBot.allocate_positions` inverts the position condition:
with no held position it emits nothing at all, and with a held
position `smaShort > smaLong` buys the sized quantity while
`smaShort < smaLong` sells the full held quantity. -/
theorem C1_decision_logic :
    (∀ (env : Env) (st : SimpleState) (stock : String) (df : List Bar) (atr : ℚ),
      env.hist stock = some df → ¬ df.length = 0 →
      helper_atr_last 14 df = some atr →
      0 < atr → 0 < env.lastPrice stock → 0 < st.stop_loss_multiplier →
      simple_symbol_step env st stock =
        simple_decision_table stock (rollingMeanLast 10 (closesOf df))
          (rollingMeanLast 30 (closesOf df)) (env.positionQty stock)
          (min (pyInt (min (st.risk_per_trade * env.portfolio_value) env.cash /
                  (atr * st.stop_loss_multiplier)))
               (pyInt (env.cash / env.lastPrice stock)))) ∧
    (∀ (env : Env) (mc : MC) (risk cash tw : ℚ) (index : ℕ) (stock : String)
       (df : List Bar) (atr : ℚ),
      env.hist stock = some df → ¬ df.length = 0 →
      calculate_atr_last 14 df = some atr →
      0 < atr → 0 < env.lastPrice stock →
      allocate_step env mc risk cash tw index stock =
        sma_decision_table (env.lastPrice stock) stock
          (rollingMeanLast (get_asset_sma_periods env mc stock).1 (closesOf df))
          (rollingMeanLast (get_asset_sma_periods env mc stock).2 (closesOf df))
          (env.positionQty stock)
          (sizedQuantity mc risk cash tw index atr (env.lastPrice stock)) atr) := by
  constructor
  · intro env st stock df atr hdf hne hatr hapos hppos hslm
    unfold simple_symbol_step
    rw [hdf]
    simp only [hne, if_false, hatr, ite_false]
    rw [if_neg (by push_neg; exact ⟨hapos, hppos⟩)]
    rw [if_pos (mul_pos hapos hslm)]
    have hps : ¬ env.lastPrice stock ≤ 0 := not_le.mpr hppos
    unfold simple_decision_table simple_place_trade simple_close_position
    simp only [hps, if_false, ite_false]
    by_cases hq : 0 < env.positionQty stock
    · have hq0 : ¬ env.positionQty stock = 0 := by omega
      simp [hq, hq0]
    · have hq0 : env.positionQty stock = 0 := by omega
      simp [hq, hq0]
  · intro env mc risk cash tw index stock df atr hdf hne hatr hapos hppos
    unfold allocate_step
    rw [hdf]
    simp only [hne, if_false, hatr, ite_false]
    rw [if_neg (not_le.mpr hapos)]
    rw [if_neg (not_le.mpr hppos)]
    have hps : ¬ env.lastPrice stock ≤ 0 := not_le.mpr hppos
    unfold sma_decision_table place_trade close_position
    simp only [hps, if_false, ite_false]
    by_cases hq : 0 < env.positionQty stock
    · simp [hq]
    · simp [hq]

/-- C1 witness: both table equalities evaluated on the rising stock "A"
with ATR 2 and last price 10. -/
theorem C1_witness :
    simple_symbol_step envA stSimple "A" =
      simple_decision_table "A" (rollingMeanLast 10 (closesOf dfA))
        (rollingMeanLast 30 (closesOf dfA)) (envA.positionQty "A")
        (min (pyInt (min (stSimple.risk_per_trade * envA.portfolio_value) envA.cash /
                (2 * stSimple.stop_loss_multiplier)))
             (pyInt (envA.cash / envA.lastPrice "A"))) ∧
    allocate_step envA MC.Neutral (3 / 100) envA.cash (total_weight_of 1) 0 "A" =
      sma_decision_table (envA.lastPrice "A") "A"
        (rollingMeanLast (get_asset_sma_periods envA MC.Neutral "A").1 (closesOf dfA))
        (rollingMeanLast (get_asset_sma_periods envA MC.Neutral "A").2 (closesOf dfA))
        (envA.positionQty "A")
        (sizedQuantity MC.Neutral (3 / 100) envA.cash (total_weight_of 1) 0 2
          (envA.lastPrice "A")) 2 :=
  ⟨C1_decision_logic.1 envA stSimple "A" dfA 2 (by decide) (by decide) (by decide)
      (by norm_num) (by decide) (by decide),
   C1_decision_logic.2 envA MC.Neutral (3 / 100) envA.cash (total_weight_of 1) 0 "A" dfA 2
      (by decide) (by decide) (by decide) (by norm_num) (by decide)⟩

end Momentum

namespace Momentum

set_option maxRecDepth 100000

/-- The score comparator is asymmetric. -/
theorem Score.slt_asymm (a b : Score) (h : Score.slt a b = true) :
    Score.slt b a = false := by
  cases a with
  | nan => simp [Score.slt] at h
  | pinf => cases b <;> simp [Score.slt] at h
  | ninf => cases b <;> rfl
  | val m1 v1 =>
      cases b with
      | nan => simp [Score.slt] at h
      | pinf => rfl
      | ninf => simp [Score.slt] at h
      | val m2 v2 =>
          simp only [Score.slt] at h ⊢
          by_cases h1 : m1 < 0
          · by_cases h2 : m2 < 0
            · rw [if_pos h1, if_pos h2] at h
              rw [if_pos h2, if_pos h1]
              have hlt := of_decide_eq_true h
              exact decide_eq_false (by linarith)
            · rw [if_neg h2, if_pos h1]
          · by_cases h2 : m2 < 0
            · rw [if_neg h1, if_pos h2] at h
              exact absurd h (by simp)
            · rw [if_neg h1, if_neg h2] at h
              rw [if_neg h2, if_neg h1]
              have hlt := of_decide_eq_true h
              exact decide_eq_false (by linarith)

/-- On well-formed scores the comparator is negatively transitive. -/
theorem Score.slt_negtrans (a b c : Score) (ha : a.Wf) (hb : b.Wf) (hc : c.Wf)
    (hab : Score.slt a b = false) (hbc : Score.slt b c = false) :
    Score.slt a c = false := by
  rw [Bool.eq_false_iff]
  intro hac
  cases a with
  | nan => exact ha.elim
  | pinf => cases c <;> simp [Score.slt] at hac
  | ninf =>
      cases c with
      | nan => exact hc.elim
      | ninf => simp [Score.slt] at hac
      | pinf =>
          cases b with
          | nan => exact hb.elim
          | ninf => simp [Score.slt] at hbc
          | pinf => simp [Score.slt] at hab
          | val m2 v2 => simp [Score.slt] at hab
      | val m3 v3 =>
          cases b with
          | nan => exact hb.elim
          | ninf => simp [Score.slt] at hbc
          | pinf => simp [Score.slt] at hab
          | val m2 v2 => simp [Score.slt] at hab
  | val m1 v1 =>
      cases c with
      | nan => exact hc.elim
      | ninf => simp [Score.slt] at hac
      | pinf =>
          cases b with
          | nan => exact hb.elim
          | pinf => simp [Score.slt] at hab
          | ninf => simp [Score.slt] at hbc
          | val m2 v2 => simp [Score.slt] at hbc
      | val m3 v3 =>
          cases b with
          | nan => exact hb.elim
          | pinf => simp [Score.slt] at hab
          | ninf => simp [Score.slt] at hbc
          | val m2 v2 =>
              simp only [Score.Wf] at ha hb hc
              simp only [Score.slt] at hab hbc hac
              by_cases h1 : m1 < 0
              · by_cases h3 : m3 < 0
                · rw [if_pos h1, if_pos h3] at hac
                  have hac2 := of_decide_eq_true hac
                  by_cases h2 : m2 < 0
                  · rw [if_pos h1, if_pos h2] at hab
                    rw [if_pos h2, if_pos h3] at hbc
                    have hA : m1 ^ 2 * v2 ≤ m2 ^ 2 * v1 :=
                      not_lt.mp (of_decide_eq_false hab)
                    have hB : m2 ^ 2 * v3 ≤ m3 ^ 2 * v2 :=
                      not_lt.mp (of_decide_eq_false hbc)
                    nlinarith [mul_le_mul_of_nonneg_right hA (le_of_lt hc),
                      mul_le_mul_of_nonneg_right hB (le_of_lt ha),
                      mul_lt_mul_of_pos_right hac2 hb]
                  · rw [if_pos h1, if_neg h2] at hab
                    exact absurd hab (by simp)
                · by_cases h2 : m2 < 0
                  · rw [if_pos h2, if_neg h3] at hbc
                    exact absurd hbc (by simp)
                  · rw [if_pos h1, if_neg h2] at hab
                    exact absurd hab (by simp)
              · by_cases h3 : m3 < 0
                · rw [if_neg h1, if_pos h3] at hac
                  exact absurd hac (by simp)
                · rw [if_neg h1, if_neg h3] at hac
                  have hac2 := of_decide_eq_true hac
                  by_cases h2 : m2 < 0
                  · rw [if_pos h2, if_neg h3] at hbc
                    exact absurd hbc (by simp)
                  · rw [if_neg h1, if_neg h2] at hab
                    rw [if_neg h2, if_neg h3] at hbc
                    have hA : m2 ^ 2 * v1 ≤ m1 ^ 2 * v2 :=
                      not_lt.mp (of_decide_eq_false hab)
                    have hB : m3 ^ 2 * v2 ≤ m2 ^ 2 * v3 :=
                      not_lt.mp (of_decide_eq_false hbc)
                    nlinarith [mul_le_mul_of_nonneg_right hA (le_of_lt hc),
                      mul_le_mul_of_nonneg_right hB (le_of_lt ha),
                      mul_lt_mul_of_pos_right hac2 hb]

end Momentum

namespace Momentum

/-- Descending insertion permutes the inserted element into the list. -/
theorem insertDesc_perm (x : String × Score) (l : List (String × Score)) :
    (insertDesc x l).Perm (x :: l) := by
  induction l with
  | nil => exact List.Perm.refl _
  | cons y ys ih =>
      unfold insertDesc
      split
      · exact (ih.cons y).trans (List.Perm.swap x y ys)
      · exact List.Perm.refl _

/-- The descending sort is a permutation of its input. -/
theorem sortDescBy_perm (l : List (String × Score)) : (sortDescBy l).Perm l := by
  induction l with
  | nil => exact List.Perm.refl _
  | cons x xs ih => exact (insertDesc_perm x (sortDescBy xs)).trans (ih.cons x)

/-- Inserting a well-formed element into a descending-sorted list of
well-formed elements keeps it descending-sorted. -/
theorem insertDesc_sorted (x : String × Score) (l : List (String × Score))
    (hx : x.2.Wf) (hl : ∀ z ∈ l, z.2.Wf)
    (hs : List.Pairwise (fun a b => Score.slt a.2 b.2 = false) l) :
    List.Pairwise (fun a b => Score.slt a.2 b.2 = false) (insertDesc x l) := by
  induction l with
  | nil => simp [insertDesc]
  | cons y ys ih =>
      have hy : y.2.Wf := hl y (by simp)
      have hys : ∀ z ∈ ys, z.2.Wf := fun z hz => hl z (by simp [hz])
      obtain ⟨hyz, hys_sorted⟩ := List.pairwise_cons.mp hs
      unfold insertDesc
      split
      · rename_i hxy
        refine List.pairwise_cons.mpr ⟨?_, ih hys hys_sorted⟩
        intro z hz
        rcases List.mem_cons.mp ((insertDesc_perm x ys).mem_iff.mp hz) with hz | hz
        · rw [hz]
          exact Score.slt_asymm x.2 y.2 hxy
        · exact hyz z hz
      · rename_i hxy
        have hxy2 : Score.slt x.2 y.2 = false := Bool.eq_false_iff.mpr hxy
        refine List.pairwise_cons.mpr ⟨?_, hs⟩
        intro z hz
        rcases List.mem_cons.mp hz with hz | hz
        · subst hz
          exact hxy2
        · exact Score.slt_negtrans x.2 y.2 z.2 hx hy (hys z hz) hxy2 (hyz z hz)

/-- The descending sort of well-formed scores is descending-sorted. -/
theorem sortDescBy_sorted (l : List (String × Score)) (hl : ∀ z ∈ l, z.2.Wf) :
    List.Pairwise (fun a b => Score.slt a.2 b.2 = false) (sortDescBy l) := by
  induction l with
  | nil => simp [sortDescBy]
  | cons x xs ih =>
      have hx : x.2.Wf := hl x (by simp)
      have hxs : ∀ z ∈ xs, z.2.Wf := fun z hz => hl z (by simp [hz])
      exact insertDesc_sorted x (sortDescBy xs) hx
        (fun z hz => hxs z ((sortDescBy_perm xs).mem_iff.mp hz)) (ih hxs)

/-- A score built by `mkScore` is well-formed unless it is NaN. -/
theorem mkScore_wf (m : PF) (v : Option ℚ) (h : mkScore m v ≠ Score.nan) :
    (mkScore m v).Wf := by
  rcases v with _ | v
  · exact absurd rfl h
  · simp only [mkScore] at h ⊢
    by_cases hv : v ≤ 0
    · rw [if_pos hv] at h ⊢
      cases m with
      | fin q =>
          have h2 : (if 0 < q then Score.pinf else if q < 0 then Score.ninf
            else Score.nan) ≠ Score.nan := h
          show (if 0 < q then Score.pinf else if q < 0 then Score.ninf
            else Score.nan).Wf
          by_cases h1 : 0 < q
          · rw [if_pos h1]; trivial
          · rw [if_neg h1] at h2 ⊢
            by_cases h3 : q < 0
            · rw [if_pos h3]; trivial
            · rw [if_neg h3] at h2 ⊢
              exact absurd rfl h2
      | pinf => trivial
      | ninf => trivial
      | nan => exact absurd rfl h
    · rw [if_neg hv] at h ⊢
      cases m with
      | fin q => exact lt_of_not_le hv
      | pinf => trivial
      | ninf => trivial
      | nan => exact absurd rfl h

/-- Membership in the ranked output is exactly membership in the
universe with valid data. -/
theorem rank_assets_mem_iff (env : Env) (stocks : List String) (s : String) :
    s ∈ rank_assets env stocks ↔
      (s ∈ stocks ∧ (get_valid_data env s).isSome = true) := by
  unfold rank_assets rankScored
  rw [List.mem_map]
  constructor
  · rintro ⟨p, hp, hps⟩
    have hp2 := (sortDescBy_perm _).mem_iff.mp hp
    obtain ⟨a, ha, hfa⟩ := List.mem_filterMap.mp hp2
    rcases hgv : get_valid_data env a with _ | df
    · rw [hgv] at hfa; cases hfa
    · rw [hgv] at hfa
      have hpe : (a, scoreOf df) = p := Option.some.inj hfa
      have has : a = s := by rw [← hps, ← hpe]
      subst has
      exact ⟨ha, by rw [hgv]; rfl⟩
  · rintro ⟨hs, hsome⟩
    rcases hgv : get_valid_data env s with _ | df
    · rw [hgv] at hsome; cases hsome
    · refine ⟨(s, scoreOf df), ?_, rfl⟩
      refine (sortDescBy_perm _).mem_iff.mpr ?_
      refine List.mem_filterMap.mpr ⟨s, hs, ?_⟩
      rw [hgv]
      rfl

/-- C4 (amended): a symbol appears in the ranked output exactly when it
is in the universe and has valid data — in particular a symbol whose
20-row close volatility is zero is NOT excluded (see the
counterexample, where it appears with an infinite score) — and whenever
no computed score is NaN the scored output is sorted in descending
score order. -/
theorem C4_ranker (env : Env) (stocks : List String) :
    (∀ s, s ∈ rank_assets env stocks ↔
      (s ∈ stocks ∧ (get_valid_data env s).isSome = true)) ∧
    ((∀ p ∈ rankScored env stocks, p.2 ≠ Score.nan) →
      List.Pairwise (fun a b => Score.slt a.2 b.2 = false) (rankScored env stocks)) := by
  constructor
  · exact fun s => rank_assets_mem_iff env stocks s
  · intro hnan
    have hwf : ∀ z ∈ stocks.filterMap
        (fun s => (get_valid_data env s).map (fun df => (s, scoreOf df))), z.2.Wf := by
      intro z hz
      have hzr : z ∈ rankScored env stocks := by
        unfold rankScored
        exact (sortDescBy_perm _).mem_iff.mpr hz
      have hznan : z.2 ≠ Score.nan := hnan z hzr
      obtain ⟨a, ha, hfa⟩ := List.mem_filterMap.mp hz
      rcases hgv : get_valid_data env a with _ | df
      · rw [hgv] at hfa; cases hfa
      · rw [hgv] at hfa
        have hpe : (a, scoreOf df) = z := Option.some.inj hfa
        have hz2 : z.2 = scoreOf df := by rw [← hpe]
        rw [hz2] at hznan ⊢
        exact mkScore_wf _ _ hznan
    unfold rankScored
    exact sortDescBy_sorted _ hwf

end Momentum

namespace Momentum

set_option maxRecDepth 100000

/-- C4 counterexample: the stock "Z" has a 20-row close volatility of
exactly 0 (std = √0 = 0 ≤ 0) and a non-finite score (+inf from the
division of its positive momentum by the zero volatility), yet it
appears in the ranked output rather than being excluded. -/
theorem C4_counterexample :
    rank_assets envZ ["Z"] = ["Z"] ∧
    rollingVarLast 20 (closesOf dfZ) = some 0 ∧
    scoreOf dfZ = Score.pinf := by decide

/-- C4 witness: on the two-symbol environment the rising stock is in
the output and the scored output is descending-sorted. -/
theorem C4_witness :
    ("X" ∈ rank_assets envRank ["X", "Y"]) ∧
    List.Pairwise (fun a b => Score.slt a.2 b.2 = false)
      (rankScored envRank ["X", "Y"]) :=
  ⟨((C4_ranker envRank ["X", "Y"]).1 "X").mpr ⟨by decide, by decide⟩,
   (C4_ranker envRank ["X", "Y"]).2 (by decide)⟩

end Momentum
